import Mathlib

/-!
# Event identity and deduplicating counter store (`event/store.go`)

A shallow embedding of the Go package `event`:

* `FocalboardEvent`, `StoredEvent`, `EventStore` are the three Go structs;
* `generateKey` is `FocalboardEvent.generateKey`: the formatted string
  `type:%s|user:%s|block:%s|board:%s`, hashed with SHA-256 and rendered with `%x`;
* `Process` is `EventStore.Process`, with the reading of `time.Now()` passed in
  as an argument and the mutated store returned next to the record.

Modelling choices.

* Go strings are modelled by Lean `String`s and hashed through their UTF-8 bytes.
  Every string produced by `json.Unmarshal` is valid UTF-8.
* `Count` is an `int64`; `Count++` wraps in Go, which `wrapInt64` makes explicit.
* `time.Time` values are modelled by integers (an instant on the clock's time line).
* `map[string]*StoredEvent` is modelled by a function `String → Option StoredEvent`.
  Every record is allocated inside `Process` and stored under one key only, so no
  two keys alias a record.
* `Process` holds `s.mu` from its first to its last statement, so one call is one
  atomic step of the store: `Process` below is that step.
-/

namespace event

/-! ## SHA-256 (`crypto/sha256`, FIPS 180-4) on bytes represented as naturals -/

namespace Sha256

/-- Words are 32 bits wide: arithmetic is modulo `2^32`. -/
def mask32 : Nat := 4294967296

/-- Round constants. -/
def K : List Nat := [
  0x428a2f98, 0x71374491, 0xb5c0fbcf, 0xe9b5dba5, 0x3956c25b, 0x59f111f1, 0x923f82a4, 0xab1c5ed5,
  0xd807aa98, 0x12835b01, 0x243185be, 0x550c7dc3, 0x72be5d74, 0x80deb1fe, 0x9bdc06a7, 0xc19bf174,
  0xe49b69c1, 0xefbe4786, 0x0fc19dc6, 0x240ca1cc, 0x2de92c6f, 0x4a7484aa, 0x5cb0a9dc, 0x76f988da,
  0x983e5152, 0xa831c66d, 0xb00327c8, 0xbf597fc7, 0xc6e00bf3, 0xd5a79147, 0x06ca6351, 0x14292967,
  0x27b70a85, 0x2e1b2138, 0x4d2c6dfc, 0x53380d13, 0x650a7354, 0x766a0abb, 0x81c2c92e, 0x92722c85,
  0xa2bfe8a1, 0xa81a664b, 0xc24b8b70, 0xc76c51a3, 0xd192e819, 0xd6990624, 0xf40e3585, 0x106aa070,
  0x19a4c116, 0x1e376c08, 0x2748774c, 0x34b0bcb5, 0x391c0cb3, 0x4ed8aa4a, 0x5b9cca4f, 0x682e6ff3,
  0x748f82ee, 0x78a5636f, 0x84c87814, 0x8cc70208, 0x90befffa, 0xa4506ceb, 0xbef9a3f7, 0xc67178f2]

/-- Initial hash value. -/
def init : List Nat := [0x6a09e667, 0xbb67ae85, 0x3c6ef372, 0xa54ff53a,
  0x510e527f, 0x9b05688c, 0x1f83d9ab, 0x5be0cd19]

/-- Rotate a 32-bit word right by `n` bits. -/
def rotr (x n : Nat) : Nat := ((x >>> n) ||| (x <<< (32 - n))) % mask32

/-- Padding: a `0x80` byte, zeros up to 56 modulo 64, then the bit length on 8 bytes. -/
def pad (msg : List Nat) : List Nat :=
  let l := msg.length
  let z := (119 - l % 64) % 64
  msg ++ [0x80] ++ List.replicate z 0 ++
    (List.range 8).map (fun i => ((8 * l) >>> (8 * (7 - i))) % 256)

/-- Big-endian value of a run of bytes. -/
def word (b : List Nat) : Nat :=
  b.foldl (fun acc x => acc * 256 + x) 0

/-- The first `n` big-endian 32-bit words of a byte list. -/
def words : Nat → List Nat → List Nat
  | 0, _ => []
  | n + 1, b => word (b.take 4) :: words n (b.drop 4)

/-- Message schedule, kept newest word first: `n` more words are derived. -/
def schedule : Nat → List Nat → List Nat
  | 0, w => w
  | n + 1, w =>
    let w2 := w.getD 1 0
    let w7 := w.getD 6 0
    let w15 := w.getD 14 0
    let w16 := w.getD 15 0
    let s0 := rotr w15 7 ^^^ rotr w15 18 ^^^ (w15 >>> 3)
    let s1 := rotr w2 17 ^^^ rotr w2 19 ^^^ (w2 >>> 10)
    schedule n (((s1 + w7 + s0 + w16) % mask32) :: w)

/-- One round of the compression function on the working variables `a..h`. -/
def round (st : List Nat) (kw : Nat × Nat) : List Nat :=
  match st with
  | [a, b, c, d, e, f, g, h] =>
    let S1 := rotr e 6 ^^^ rotr e 11 ^^^ rotr e 25
    let ch := (e &&& f) ^^^ ((mask32 - 1 - e) &&& g)
    let t1 := (h + S1 + ch + kw.1 + kw.2) % mask32
    let S0 := rotr a 2 ^^^ rotr a 13 ^^^ rotr a 22
    let maj := (a &&& b) ^^^ (a &&& c) ^^^ (b &&& c)
    let t2 := (S0 + maj) % mask32
    [(t1 + t2) % mask32, a, b, c, (d + t1) % mask32, e, f, g]
  | _ => st

/-- Compression of one 64-byte block into the running hash value. -/
def compress (h : List Nat) (block : List Nat) : List Nat :=
  let w := (schedule 48 (words 16 block).reverse).reverse
  let r := (K.zip w).foldl round h
  List.zipWith (fun x y => (x + y) % mask32) h r

/-- The first `n` 64-byte blocks of a byte list. -/
def blocks : Nat → List Nat → List (List Nat)
  | 0, _ => []
  | n + 1, b => b.take 64 :: blocks n (b.drop 64)

/-- Digest of a message: `sha256.Sum256`, 32 bytes. -/
def Sum256 (msg : List Nat) : List Nat :=
  let p := pad msg
  let h := (blocks (p.length / 64) p).foldl compress init
  h.flatMap (fun x => [x >>> 24 % 256, x >>> 16 % 256, x >>> 8 % 256, x % 256])

end Sha256

/-! ## Data model -/

/-- Struct `FocalboardEvent`: the raw event received from the webhook.
The Go field `Type` is spelled `Type_` here. -/
structure FocalboardEvent where
  Type_ : String
  UserID : String
  BlockID : String
  BoardID : String
  Timestamp : Int
  Payload : List UInt8
deriving DecidableEq, Repr

/-- A reading of `time.Now()`. -/
abbrev Time := Int

/-- Struct `StoredEvent`: the record kept in memory for one key. -/
structure StoredEvent where
  FirstSeen : Time
  LastSeen : Time
  Count : Int
  Details : FocalboardEvent
deriving DecidableEq, Repr

/-- Struct `EventStore`: the map `events` from key to record. -/
structure EventStore where
  events : String → Option StoredEvent

/-- Two's-complement wrap-around of an `int64` result. -/
def wrapInt64 (x : Int) : Int :=
  (x + 9223372036854775808) % 18446744073709551616 - 9223372036854775808

/-- The bytes of a string, as hashed by `sha256.Sum256([]byte(key))`. -/
def bytes (s : String) : List Nat :=
  (s.data.flatMap String.utf8EncodeChar).map UInt8.toNat

/-- One lower-case hexadecimal digit. -/
def hexDigit (n : Nat) : Char := "0123456789abcdef".data.getD n '0'

/-- Rendering of a byte array with the verb `%x`: two digits per byte. -/
def hex (bs : List Nat) : String :=
  ⟨bs.flatMap (fun b => [hexDigit (b / 16), hexDigit (b % 16)])⟩

/-! ## Operations -/

/-- The empty store of `NewEventStore`. -/
def NewEventStore : EventStore :=
  { events := fun _ => none }

/-- The local `key` of `generateKey` before hashing:
`fmt.Sprintf("type:%s|user:%s|block:%s|board:%s", ...)`. -/
def canonicalKey (e : FocalboardEvent) : String :=
  "type:" ++ e.Type_ ++ "|user:" ++ e.UserID ++ "|block:" ++ e.BlockID ++ "|board:" ++ e.BoardID

/-- Method `generateKey`: the SHA-256 digest of the formatted key, in hexadecimal. -/
def generateKey (e : FocalboardEvent) : String :=
  hex (Sha256.Sum256 (bytes (canonicalKey e)))

/-- Method `Process`, at clock reading `now`: the store after the call and the
record the returned pointer refers to. -/
def Process (s : EventStore) (now : Time) (event : FocalboardEvent) :
    EventStore × StoredEvent :=
  let key := generateKey event
  match s.events key with
  | some existingEvent =>
    let updated : StoredEvent :=
      { existingEvent with Count := wrapInt64 (existingEvent.Count + 1), LastSeen := now }
    ({ events := fun k => if k = key then some updated else s.events k }, updated)
  | none =>
    let newEvent : StoredEvent :=
      { FirstSeen := now, LastSeen := now, Count := 1, Details := event }
    ({ events := fun k => if k = key then some newEvent else s.events k }, newEvent)

/-- A sequence of `Process` calls, each with its clock reading, run in order. -/
def run (s : EventStore) (calls : List (Time × FocalboardEvent)) : EventStore :=
  calls.foldl (fun st c => (Process st c.1 c.2).1) s

/-- Number of calls of a sequence whose event has key `k`. -/
def callsFor (k : String) (calls : List (Time × FocalboardEvent)) : Nat :=
  calls.countP (fun c => decide (generateKey c.2 = k))

/-- The four identity fields of an event. -/
def identity (e : FocalboardEvent) : String × String × String × String :=
  (e.Type_, e.UserID, e.BlockID, e.BoardID)

/-- The statement `existingEvent.Count++` on the `int64` field `Count`. -/
def incrCount (c : Int) : Int := wrapInt64 (c + 1)

/-- The clock readings of a sequence of calls, in call order. -/
def clock (calls : List (Time × FocalboardEvent)) : List Time :=
  calls.map Prod.fst

/-- No separator character in the three fields that a separator follows. -/
def separatorFree (e : FocalboardEvent) : Prop :=
  '|' ∉ e.Type_.data ∧ '|' ∉ e.UserID.data ∧ '|' ∉ e.BlockID.data

instance (e : FocalboardEvent) : Decidable (separatorFree e) :=
  inferInstanceAs (Decidable ('|' ∉ e.Type_.data ∧ '|' ∉ e.UserID.data ∧ '|' ∉ e.BlockID.data))

/-- Two events agree on three of the four identity fields at least. -/
def agreeOnThree (e1 e2 : FocalboardEvent) : Prop :=
  (e1.UserID = e2.UserID ∧ e1.BlockID = e2.BlockID ∧ e1.BoardID = e2.BoardID) ∨
  (e1.Type_ = e2.Type_ ∧ e1.BlockID = e2.BlockID ∧ e1.BoardID = e2.BoardID) ∨
  (e1.Type_ = e2.Type_ ∧ e1.UserID = e2.UserID ∧ e1.BoardID = e2.BoardID) ∨
  (e1.Type_ = e2.Type_ ∧ e1.UserID = e2.UserID ∧ e1.BlockID = e2.BlockID)

instance (e1 e2 : FocalboardEvent) : Decidable (agreeOnThree e1 e2) :=
  inferInstanceAs (Decidable (
    (e1.UserID = e2.UserID ∧ e1.BlockID = e2.BlockID ∧ e1.BoardID = e2.BoardID) ∨
    (e1.Type_ = e2.Type_ ∧ e1.BlockID = e2.BlockID ∧ e1.BoardID = e2.BoardID) ∨
    (e1.Type_ = e2.Type_ ∧ e1.UserID = e2.UserID ∧ e1.BoardID = e2.BoardID) ∨
    (e1.Type_ = e2.Type_ ∧ e1.UserID = e2.UserID ∧ e1.BlockID = e2.BlockID)))

/-! ## Sample inputs -/

/-- The event of the end-to-end scenario, occurring at 1000. -/
def ev1000 : FocalboardEvent :=
  { Type_ := "block-changed", UserID := "u1", BlockID := "b1", BoardID := "brd1",
    Timestamp := 1000, Payload := [] }

/-- The same identity occurring again at 2000, with another payload. -/
def ev2000 : FocalboardEvent :=
  { Type_ := "block-changed", UserID := "u1", BlockID := "b1", BoardID := "brd1",
    Timestamp := 2000, Payload := [123, 125] }

/-- Another block of the same board. -/
def evB2 : FocalboardEvent :=
  { Type_ := "block-changed", UserID := "u1", BlockID := "b2", BoardID := "brd1",
    Timestamp := 1500, Payload := [] }

/-- The tuple `("a", "bc", "", "")`. -/
def evA_BC : FocalboardEvent :=
  { Type_ := "a", UserID := "bc", BlockID := "", BoardID := "", Timestamp := 0, Payload := [] }

/-- The tuple `("ab", "c", "", "")`. -/
def evAB_C : FocalboardEvent :=
  { Type_ := "ab", UserID := "c", BlockID := "", BoardID := "", Timestamp := 0, Payload := [] }

/-- An event whose `Type` holds the separator and label of the next field. -/
def evSepInType : FocalboardEvent :=
  { Type_ := "a|user:b", UserID := "c", BlockID := "", BoardID := "",
    Timestamp := 0, Payload := [] }

/-- An event whose `UserID` holds the separator and label in front of it. -/
def evSepInUser : FocalboardEvent :=
  { Type_ := "a", UserID := "b|user:c", BlockID := "", BoardID := "",
    Timestamp := 0, Payload := [] }

/-- Three calls at clock readings 10, 20, 30: `ev1000`, `evB2`, `ev2000`. -/
def scenario : List (Time × FocalboardEvent) :=
  [(10, ev1000), (20, evB2), (30, ev2000)]

/-! ## Single-step facts about `Process` -/

theorem Process_events_of_ne (s : EventStore) (now : Time) (e : FocalboardEvent) (k : String)
    (h : k ≠ generateKey e) : (Process s now e).1.events k = s.events k := by
  unfold Process
  cases hs : s.events (generateKey e) <;> simp [hs, h]

theorem Process_of_none (s : EventStore) (now : Time) (e : FocalboardEvent)
    (h : s.events (generateKey e) = none) :
    (Process s now e).2 = ⟨now, now, 1, e⟩ ∧
    (Process s now e).1.events (generateKey e) = some ⟨now, now, 1, e⟩ := by
  unfold Process
  simp [h]

theorem Process_of_some (s : EventStore) (now : Time) (e : FocalboardEvent) (r : StoredEvent)
    (h : s.events (generateKey e) = some r) :
    (Process s now e).2 = { r with Count := wrapInt64 (r.Count + 1), LastSeen := now } ∧
    (Process s now e).1.events (generateKey e) =
      some { r with Count := wrapInt64 (r.Count + 1), LastSeen := now } := by
  unfold Process
  simp [h]

theorem Process_stored_eq_returned (s : EventStore) (now : Time) (e : FocalboardEvent) :
    (Process s now e).1.events (generateKey e) = some (Process s now e).2 := by
  cases h : s.events (generateKey e) with
  | none => rw [(Process_of_none s now e h).1, (Process_of_none s now e h).2]
  | some r => rw [(Process_of_some s now e r h).1, (Process_of_some s now e r h).2]

/-! ## `int64` increment -/

theorem wrapInt64_of_range (x : Int) (h1 : -9223372036854775808 ≤ x)
    (h2 : x < 9223372036854775808) : wrapInt64 x = x := by
  unfold wrapInt64
  omega

theorem wrapInt64_add (x y : Int) : wrapInt64 (wrapInt64 x + y) = wrapInt64 (x + y) := by
  unfold wrapInt64
  omega

theorem incrCount_iterate_wrap (n : Nat) (c : Int) :
    incrCount^[n + 1] c = wrapInt64 (c + n + 1) := by
  induction n with
  | zero => simp [incrCount]
  | succ m ih =>
    rw [Function.iterate_succ_apply', ih]
    unfold incrCount
    rw [wrapInt64_add]
    push_cast
    ring_nf

theorem incrCount_iterate_from_one (n : Nat) (h : n < 9223372036854775807) :
    incrCount^[n] 1 = (n : Int) + 1 := by
  cases n with
  | zero => simp
  | succ m =>
    rw [incrCount_iterate_wrap, wrapInt64_of_range] <;> push_cast <;> omega

/-! ## Runs of calls -/

theorem run_nil (s : EventStore) : run s [] = s := rfl

theorem run_cons (s : EventStore) (c : Time × FocalboardEvent)
    (cs : List (Time × FocalboardEvent)) :
    run s (c :: cs) = run (Process s c.1 c.2).1 cs := rfl

theorem run_append (s : EventStore) (a b : List (Time × FocalboardEvent)) :
    run s (a ++ b) = run (run s a) b := by
  unfold run
  rw [List.foldl_append]

theorem callsFor_cons_pos (k : String) (c : Time × FocalboardEvent)
    (cs : List (Time × FocalboardEvent)) (h : generateKey c.2 = k) :
    callsFor k (c :: cs) = callsFor k cs + 1 := by
  unfold callsFor
  rw [List.countP_cons_of_pos]
  simpa using h

theorem callsFor_cons_neg (k : String) (c : Time × FocalboardEvent)
    (cs : List (Time × FocalboardEvent)) (h : generateKey c.2 ≠ k) :
    callsFor k (c :: cs) = callsFor k cs := by
  unfold callsFor
  rw [List.countP_cons_of_neg]
  simpa using h

theorem callsFor_replicate (n : Nat) (t : Time) (e : FocalboardEvent) :
    callsFor (generateKey e) (List.replicate n (t, e)) = n := by
  unfold callsFor
  rw [List.countP_replicate]
  simp

/-- A record present before a run is present after it: `Count` has been incremented
once per call for its key, `FirstSeen` and `Details` are as before. -/
theorem run_of_some (calls : List (Time × FocalboardEvent)) (s : EventStore) (k : String)
    (r : StoredEvent) (h : s.events k = some r) :
    ∃ r2, (run s calls).events k = some r2 ∧
      r2.Count = incrCount^[callsFor k calls] r.Count ∧
      r2.FirstSeen = r.FirstSeen ∧ r2.Details = r.Details := by
  induction calls generalizing s r with
  | nil => exact ⟨r, by rw [run_nil]; exact h, by simp [callsFor], rfl, rfl⟩
  | cons c cs ih =>
    rw [run_cons]
    by_cases hk : generateKey c.2 = k
    · subst hk
      obtain ⟨r2, h2, hc, hf, hd⟩ := ih (Process s c.1 c.2).1 _ (Process_of_some s c.1 c.2 r h).2
      refine ⟨r2, h2, ?_, hf, hd⟩
      rw [hc, callsFor_cons_pos _ _ _ rfl, Function.iterate_succ_apply]
      rfl
    · have hne : k ≠ generateKey c.2 := fun h3 => hk h3.symm
      obtain ⟨r2, h2, hc, hf, hd⟩ := ih (Process s c.1 c.2).1 r
        (by rw [Process_events_of_ne s c.1 c.2 k hne]; exact h)
      refine ⟨r2, h2, ?_, hf, hd⟩
      rw [hc, callsFor_cons_neg _ _ _ hk]

/-- A key absent before a run and not hit by any call is absent after it. -/
theorem run_of_none_zero (calls : List (Time × FocalboardEvent)) (s : EventStore) (k : String)
    (h : s.events k = none) (h0 : callsFor k calls = 0) : (run s calls).events k = none := by
  induction calls generalizing s with
  | nil => rw [run_nil]; exact h
  | cons c cs ih =>
    rw [run_cons]
    by_cases hk : generateKey c.2 = k
    · rw [callsFor_cons_pos _ _ _ hk] at h0
      omega
    · have hne : k ≠ generateKey c.2 := fun h3 => hk h3.symm
      rw [callsFor_cons_neg _ _ _ hk] at h0
      exact ih _ (by rw [Process_events_of_ne s c.1 c.2 k hne]; exact h) h0

/-- A key absent before a run gets its record from the first call for it. -/
theorem run_of_none_first (calls : List (Time × FocalboardEvent)) (s : EventStore) (k : String)
    (h : s.events k = none) (c0 : Time × FocalboardEvent)
    (hf : calls.find? (fun c => decide (generateKey c.2 = k)) = some c0) :
    ∃ r, (run s calls).events k = some r ∧
      r.Count = incrCount^[callsFor k calls - 1] 1 ∧
      r.FirstSeen = c0.1 ∧ r.Details = c0.2 := by
  induction calls generalizing s with
  | nil => simp at hf
  | cons c cs ih =>
    rw [run_cons]
    by_cases hk : generateKey c.2 = k
    · rw [List.find?_cons_of_pos _ (by simpa using hk)] at hf
      have hc0 : c = c0 := Option.some.inj hf
      subst hc0
      subst hk
      obtain ⟨r2, h2, hc, hfs, hd⟩ :=
        run_of_some cs (Process s c.1 c.2).1 _ _ (Process_of_none s c.1 c.2 h).2
      refine ⟨r2, h2, ?_, hfs, hd⟩
      rw [hc, callsFor_cons_pos _ _ _ rfl, Nat.add_sub_cancel]
    · have hne : k ≠ generateKey c.2 := fun h3 => hk h3.symm
      rw [List.find?_cons_of_neg _ (by simpa using hk)] at hf
      obtain ⟨r2, h2, hc, hfs, hd⟩ := ih (Process s c.1 c.2).1
        (by rw [Process_events_of_ne s c.1 c.2 k hne]; exact h) hf
      refine ⟨r2, h2, ?_, hfs, hd⟩
      rw [hc, callsFor_cons_neg _ _ _ hk]

theorem find_of_callsFor_pos (calls : List (Time × FocalboardEvent)) (k : String)
    (h : 0 < callsFor k calls) :
    ∃ c0, calls.find? (fun c => decide (generateKey c.2 = k)) = some c0 := by
  unfold callsFor at h
  rw [List.countP_pos_iff] at h
  obtain ⟨a, ha, hp⟩ := h
  cases hf : calls.find? (fun c => decide (generateKey c.2 = k)) with
  | some c0 => exact ⟨c0, rfl⟩
  | none =>
    rw [List.find?_eq_none] at hf
    exact absurd hp (hf a ha)

/-! ## Frame and first-occurrence properties -/

/-- C7. Isolation across tokens: for every store, every event `e` and every key `k`
other than `generateKey e`, the map entry under `k` after `Process` is the entry
before (the same record in all four fields), and `k` is absent after exactly when
it was absent before. -/
theorem isolation_across_tokens (s : EventStore) (now : Time) (e : FocalboardEvent)
    (k : String) (hk : k ≠ generateKey e) :
    (Process s now e).1.events k = s.events k ∧
    ((Process s now e).1.events k = none ↔ s.events k = none) := by
  have h := Process_events_of_ne s now e k hk
  exact ⟨h, by rw [h]⟩

theorem isolation_across_tokens_witness :
    generateKey ev1000 ≠ generateKey evB2 ∧
    ((Process (Process NewEventStore 10 ev1000).1 20 evB2).1.events (generateKey ev1000)
        = (Process NewEventStore 10 ev1000).1.events (generateKey ev1000) ∧
     ((Process (Process NewEventStore 10 ev1000).1 20 evB2).1.events (generateKey ev1000) = none
        ↔ (Process NewEventStore 10 ev1000).1.events (generateKey ev1000) = none)) :=
  ⟨by decide!,
   isolation_across_tokens (Process NewEventStore 10 ev1000).1 20 evB2 (generateKey ev1000)
     (by decide!)⟩

/-- C8. First occurrence: when the store has no record under `generateKey e`,
`Process e` at clock reading `now` returns, and stores under that key, the record
with `FirstSeen = now`, `LastSeen = now`, `Count = 1` and `Details = e`; on the
empty store of `NewEventStore` this is so for every event, and `Process` is a total
function, so the call never fails. -/
theorem first_occurrence (now : Time) (e : FocalboardEvent) :
    (∀ s : EventStore, s.events (generateKey e) = none →
      (Process s now e).2 = ⟨now, now, 1, e⟩ ∧
      (Process s now e).1.events (generateKey e) = some ⟨now, now, 1, e⟩) ∧
    ((Process NewEventStore now e).2 = ⟨now, now, 1, e⟩ ∧
      (Process NewEventStore now e).1.events (generateKey e) = some ⟨now, now, 1, e⟩ ∧
      (Process NewEventStore now e).2.Count = 1 ∧
      (Process NewEventStore now e).2.FirstSeen = (Process NewEventStore now e).2.LastSeen) := by
  have h0 := Process_of_none NewEventStore now e rfl
  refine ⟨fun s h => Process_of_none s now e h, h0.1, h0.2, ?_, ?_⟩
  · rw [h0.1]
  · rw [h0.1]

theorem first_occurrence_witness :
    (Process NewEventStore 10 ev1000).1.events (generateKey evB2) = none ∧
    ((Process (Process NewEventStore 10 ev1000).1 20 evB2).2 = ⟨20, 20, 1, evB2⟩ ∧
     (Process (Process NewEventStore 10 ev1000).1 20 evB2).1.events (generateKey evB2)
        = some ⟨20, 20, 1, evB2⟩) :=
  ⟨by decide!,
   (first_occurrence 20 evB2).1 (Process NewEventStore 10 ev1000).1 (by decide!)⟩

/-! ## `FirstSeen` -/

/-- C5. `FirstSeen` is immutable: when the store holds a record under `k`, after
`Process` of any event at any clock reading the store still holds a record under `k`
with the same `FirstSeen`; and after any sequence of calls on the empty store, the
`FirstSeen` of the record under `k` is the clock reading of the first call of the
sequence whose event has key `k`. -/
theorem first_seen_immutable (k : String) :
    (∀ (s : EventStore) (r : StoredEvent) (now : Time) (e : FocalboardEvent),
      s.events k = some r →
      ∃ r2, (Process s now e).1.events k = some r2 ∧ r2.FirstSeen = r.FirstSeen) ∧
    (∀ (calls : List (Time × FocalboardEvent)) (c0 : Time × FocalboardEvent),
      calls.find? (fun c => decide (generateKey c.2 = k)) = some c0 →
      ∃ r, (run NewEventStore calls).events k = some r ∧ r.FirstSeen = c0.1) := by
  constructor
  · intro s r now e h
    by_cases hk : k = generateKey e
    · subst hk
      exact ⟨_, (Process_of_some s now e r h).2, rfl⟩
    · exact ⟨r, by rw [Process_events_of_ne s now e k hk]; exact h, rfl⟩
  · intro calls c0 hf
    obtain ⟨r, hr, _, hfs, _⟩ := run_of_none_first calls NewEventStore k rfl c0 hf
    exact ⟨r, hr, hfs⟩

theorem first_seen_immutable_witness :
    (Process NewEventStore 10 ev1000).1.events (generateKey ev1000) = some ⟨10, 10, 1, ev1000⟩ ∧
    (∃ r2, (Process (Process NewEventStore 10 ev1000).1 30 ev2000).1.events (generateKey ev1000)
        = some r2 ∧ r2.FirstSeen = 10) ∧
    scenario.find? (fun c => decide (generateKey c.2 = generateKey ev1000)) = some (10, ev1000) ∧
    (∃ r, (run NewEventStore scenario).events (generateKey ev1000) = some r ∧
        r.FirstSeen = 10) :=
  ⟨by decide!,
   (first_seen_immutable (generateKey ev1000)).1 (Process NewEventStore 10 ev1000).1
     ⟨10, 10, 1, ev1000⟩ 30 ev2000 (by decide!),
   by decide!,
   (first_seen_immutable (generateKey ev1000)).2 scenario (10, ev1000) (by decide!)⟩

/-! ## `Details` -/

/-- C2 fails as stated: after `ev1000` and then `ev2000` (same identity, `Timestamp`
2000, another payload), the record returned and stored keeps the `Details` of the
first event: its `Timestamp` is 1000, not 2000. -/
theorem details_most_recent_counterexample :
    generateKey ev2000 = generateKey ev1000 ∧
    (Process (Process NewEventStore 10 ev1000).1 20 ev2000).2.Details ≠ ev2000 ∧
    (Process (Process NewEventStore 10 ev1000).1 20 ev2000).2.Details.Timestamp = 1000 ∧
    (Process (Process NewEventStore 10 ev1000).1 20 ev2000).1.events (generateKey ev2000)
      = some ⟨10, 20, 2, ev1000⟩ := by
  decide!

/-- C2, amended. After `Process e` the record stored under the key of `e` is the
returned record; its `Details` equals `e` when the record is newly created, and when
a record for that key already existed its `Details` is left as it was. -/
theorem details_set_at_creation (s : EventStore) (now : Time) (e : FocalboardEvent) :
    (Process s now e).1.events (generateKey e) = some (Process s now e).2 ∧
    (s.events (generateKey e) = none → (Process s now e).2.Details = e) ∧
    (∀ r, s.events (generateKey e) = some r → (Process s now e).2.Details = r.Details) := by
  refine ⟨Process_stored_eq_returned s now e, ?_, ?_⟩
  · intro h
    rw [(Process_of_none s now e h).1]
  · intro r h
    rw [(Process_of_some s now e r h).1]

theorem details_set_at_creation_witness :
    NewEventStore.events (generateKey ev1000) = none ∧
    (Process NewEventStore 10 ev1000).2.Details = ev1000 ∧
    (Process NewEventStore 10 ev1000).1.events (generateKey ev2000) = some ⟨10, 10, 1, ev1000⟩ ∧
    (Process (Process NewEventStore 10 ev1000).1 20 ev2000).2.Details = ev1000 :=
  ⟨rfl,
   (details_set_at_creation NewEventStore 10 ev1000).2.1 rfl,
   by decide!,
   (details_set_at_creation (Process NewEventStore 10 ev1000).1 20 ev2000).2.2
     ⟨10, 10, 1, ev1000⟩ (by decide!)⟩

/-! ## `Count` -/

/-- After `n > 0` calls for one event on the empty store, its `Count` is `n`
wrapped to an `int64`. -/
theorem run_replicate_count (n : Nat) (hn : 0 < n) (t : Time) (e : FocalboardEvent) :
    ∃ r, (run NewEventStore (List.replicate n (t, e))).events (generateKey e) = some r ∧
      r.Count = wrapInt64 n := by
  obtain ⟨m, rfl⟩ : ∃ m, n = m + 1 := ⟨n - 1, by omega⟩
  have hf : (List.replicate (m + 1) (t, e)).find?
      (fun c => decide (generateKey c.2 = generateKey e)) = some (t, e) := by
    rw [List.replicate_succ, List.find?_cons_of_pos _ (by simp)]
  obtain ⟨r, hr, hc, _, _⟩ :=
    run_of_none_first (List.replicate (m + 1) (t, e)) NewEventStore (generateKey e) rfl (t, e) hf
  refine ⟨r, hr, ?_⟩
  rw [hc, callsFor_replicate, Nat.add_sub_cancel]
  cases m with
  | zero => rfl
  | succ j =>
    rw [incrCount_iterate_wrap]
    push_cast
    ring_nf

/-- C1 fails as stated: after `2^63` calls for `ev1000` on the empty store, the
`Count` of its record is `-2^63` (the `int64` has wrapped), not the number of calls. -/
theorem count_correct_counterexample :
    callsFor (generateKey ev1000) (List.replicate 9223372036854775808 (0, ev1000))
      = 9223372036854775808 ∧
    ∃ r, (run NewEventStore (List.replicate 9223372036854775808 (0, ev1000))).events
        (generateKey ev1000) = some r ∧
      r.Count = -9223372036854775808 ∧
      r.Count ≠ (callsFor (generateKey ev1000)
        (List.replicate 9223372036854775808 (0, ev1000)) : Int) := by
  refine ⟨callsFor_replicate _ _ _, ?_⟩
  obtain ⟨r, hr, hc⟩ := run_replicate_count 9223372036854775808 (by norm_num) 0 ev1000
  have hv : wrapInt64 ((9223372036854775808 : Nat) : Int) = -9223372036854775808 := by
    unfold wrapInt64
    norm_num
  rw [hv] at hc
  refine ⟨r, hr, hc, ?_⟩
  rw [callsFor_replicate, hc]
  norm_num

/-- C1, amended. Starting from the empty store, for every sequence of `Process` calls
(arbitrary clock readings, other identities interleaved) and every key `k` hit by
`N < 2^63` calls of the sequence: no record exists under `k` when `N = 0`, and
otherwise the `Count` of the record under `k` equals `N`. -/
theorem count_correct (calls : List (Time × FocalboardEvent)) (k : String)
    (hN : callsFor k calls < 9223372036854775808) :
    (callsFor k calls = 0 → (run NewEventStore calls).events k = none) ∧
    (0 < callsFor k calls →
      ∃ r, (run NewEventStore calls).events k = some r ∧ r.Count = (callsFor k calls : Int)) := by
  constructor
  · intro h0
    exact run_of_none_zero calls NewEventStore k rfl h0
  · intro hpos
    obtain ⟨c0, hf⟩ := find_of_callsFor_pos calls k hpos
    obtain ⟨r, hr, hc, _, _⟩ := run_of_none_first calls NewEventStore k rfl c0 hf
    refine ⟨r, hr, ?_⟩
    rw [hc, incrCount_iterate_from_one _ (by omega)]
    omega

theorem count_correct_witness :
    callsFor (generateKey ev1000) scenario < 9223372036854775808 ∧
    0 < callsFor (generateKey ev1000) scenario ∧
    callsFor (generateKey ev1000) scenario = 2 ∧
    (∃ r, (run NewEventStore scenario).events (generateKey ev1000) = some r ∧
      r.Count = (callsFor (generateKey ev1000) scenario : Int)) ∧
    callsFor (generateKey evA_BC) scenario = 0 ∧
    (run NewEventStore scenario).events (generateKey evA_BC) = none :=
  ⟨by decide!, by decide!, by decide!,
   (count_correct scenario (generateKey ev1000) (by decide!)).2 (by decide!),
   by decide!,
   (count_correct scenario (generateKey evA_BC) (by decide!)).1 (by decide!)⟩

/-- C9 fails as stated: the store reached from the empty store by `2^63 - 1` calls for
`ev1000` holds a record with `Count = 2^63 - 1`; one more call leaves the record with
`Count = -2^63`, which is below the previous `Count` and below 1. -/
theorem no_reset_counterexample :
    ∃ r r2,
      (run NewEventStore (List.replicate 9223372036854775807 (0, ev1000))).events
        (generateKey ev1000) = some r ∧
      (Process (run NewEventStore (List.replicate 9223372036854775807 (0, ev1000))) 0
        ev1000).1.events (generateKey ev1000) = some r2 ∧
      r.Count = 9223372036854775807 ∧ r2.Count = -9223372036854775808 ∧
      ¬ (r.Count ≤ r2.Count) ∧ ¬ (1 ≤ r2.Count) := by
  obtain ⟨r, hr, hc⟩ := run_replicate_count 9223372036854775807 (by norm_num) 0 ev1000
  have hv : wrapInt64 ((9223372036854775807 : Nat) : Int) = 9223372036854775807 := by
    unfold wrapInt64
    norm_num
  rw [hv] at hc
  have hp := (Process_of_some _ 0 ev1000 r hr).2
  refine ⟨r, _, hr, hp, hc, ?_, ?_, ?_⟩
  · show wrapInt64 (r.Count + 1) = -9223372036854775808
    rw [hc]
    unfold wrapInt64
    norm_num
  · show ¬ (r.Count ≤ wrapInt64 (r.Count + 1))
    rw [hc]
    unfold wrapInt64
    norm_num
  · show ¬ (1 ≤ wrapInt64 (r.Count + 1))
    rw [hc]
    unfold wrapInt64
    norm_num

/-- C9, amended. For every store and every event `e`: the keys present after
`Process e` are the keys present before plus exactly `generateKey e`, so no key is
removed; the `Count` of a key other than `generateKey e` is unchanged and the `Count`
under `generateKey e` is the previous one plus one, wrapped to an `int64`; so a
`Count` that was at least 1 (and, under `generateKey e`, below `2^63 - 1`) is
afterwards greater than or equal to its previous value and at least 1. -/
theorem no_removal (s : EventStore) (now : Time) (e : FocalboardEvent) :
    (∀ k, ((Process s now e).1.events k).isSome ↔ ((s.events k).isSome ∨ k = generateKey e)) ∧
    (∀ k r, s.events k = some r →
      ∃ r2, (Process s now e).1.events k = some r2 ∧
        (k ≠ generateKey e → r2.Count = r.Count) ∧
        (k = generateKey e → r2.Count = wrapInt64 (r.Count + 1)) ∧
        (1 ≤ r.Count → (k = generateKey e → r.Count < 9223372036854775807) →
          r.Count ≤ r2.Count ∧ 1 ≤ r2.Count)) := by
  constructor
  · intro k
    by_cases hk : k = generateKey e
    · subst hk
      rw [Process_stored_eq_returned]
      simp
    · rw [Process_events_of_ne s now e k hk]
      simp [hk]
  · intro k r h
    by_cases hk : k = generateKey e
    · subst hk
      refine ⟨_, (Process_of_some s now e r h).2, fun hne => absurd rfl hne, fun _ => rfl, ?_⟩
      intro h1 h2
      have h3 := h2 rfl
      show r.Count ≤ wrapInt64 (r.Count + 1) ∧ 1 ≤ wrapInt64 (r.Count + 1)
      rw [wrapInt64_of_range (r.Count + 1) (by omega) (by omega)]
      omega
    · refine ⟨r, by rw [Process_events_of_ne s now e k hk]; exact h, fun _ => rfl,
        fun heq => absurd heq hk, ?_⟩
      intro h1 _
      exact ⟨le_refl _, h1⟩

theorem no_removal_witness :
    (Process NewEventStore 10 ev1000).1.events (generateKey ev1000) = some ⟨10, 10, 1, ev1000⟩ ∧
    generateKey ev1000 = generateKey ev2000 ∧
    (∃ r2, (Process (Process NewEventStore 10 ev1000).1 20 ev2000).1.events (generateKey ev1000)
        = some r2 ∧ r2.Count = wrapInt64 (1 + 1) ∧ (1 : Int) ≤ r2.Count) ∧
    (((Process (Process NewEventStore 10 ev1000).1 20 evB2).1.events
        (generateKey evB2)).isSome ↔
      (((Process NewEventStore 10 ev1000).1.events (generateKey evB2)).isSome ∨
        generateKey evB2 = generateKey evB2)) := by
  have hk : generateKey ev1000 = generateKey ev2000 := by decide!
  refine ⟨by decide!, hk, ?_, ?_⟩
  · obtain ⟨r2, h1, _, h3, h4⟩ :=
      (no_removal (Process NewEventStore 10 ev1000).1 20 ev2000).2 (generateKey ev1000)
        ⟨10, 10, 1, ev1000⟩ (by decide!)
    exact ⟨r2, h1, h3 hk, (h4 (by decide) (fun _ => by decide)).2⟩
  · exact (no_removal (Process NewEventStore 10 ev1000).1 20 evB2).1 (generateKey evB2)

/-! ## Identity -/

theorem canonicalKey_of_identity (e1 e2 : FocalboardEvent) (h : identity e1 = identity e2) :
    canonicalKey e1 = canonicalKey e2 := by
  simp only [identity, Prod.mk.injEq] at h
  obtain ⟨h1, h2, h3, h4⟩ := h
  unfold canonicalKey
  rw [h1, h2, h3, h4]

/-- C4. Identity depends only on the four identity fields: two events with equal
`Type`, `UserID`, `BlockID` and `BoardID` have the same key whatever their `Timestamp`
and `Payload` (so has one event with itself); and `Process` on one and then the other
creates no second record: the second call adds no key and updates the record the
first call left under the common key. -/
theorem identity_only (e1 e2 : FocalboardEvent) (h : identity e1 = identity e2) :
    generateKey e1 = generateKey e2 ∧ generateKey e1 = generateKey e1 ∧
    ∀ (s : EventStore) (t1 t2 : Time),
      ∃ r1, (Process s t1 e1).1.events (generateKey e1) = some r1 ∧
        (Process (Process s t1 e1).1 t2 e2).1.events (generateKey e1)
          = some { r1 with Count := wrapInt64 (r1.Count + 1), LastSeen := t2 } ∧
        ∀ k, ((Process (Process s t1 e1).1 t2 e2).1.events k).isSome
          ↔ ((Process s t1 e1).1.events k).isSome := by
  have hkey : generateKey e1 = generateKey e2 := by
    unfold generateKey
    rw [canonicalKey_of_identity e1 e2 h]
  refine ⟨hkey, rfl, ?_⟩
  intro s t1 t2
  have h1 := Process_stored_eq_returned s t1 e1
  refine ⟨_, h1, ?_, ?_⟩
  · rw [hkey] at h1 ⊢
    exact (Process_of_some _ t2 e2 _ h1).2
  · intro k
    by_cases hk : k = generateKey e2
    · subst hk
      rw [Process_stored_eq_returned, ← hkey, h1]
      simp
    · rw [Process_events_of_ne _ t2 e2 k hk]

theorem identity_only_witness :
    identity ev1000 = identity ev2000 ∧ ev1000 ≠ ev2000 ∧
    (generateKey ev1000 = generateKey ev2000 ∧ generateKey ev1000 = generateKey ev1000 ∧
    ∀ (s : EventStore) (t1 t2 : Time),
      ∃ r1, (Process s t1 ev1000).1.events (generateKey ev1000) = some r1 ∧
        (Process (Process s t1 ev1000).1 t2 ev2000).1.events (generateKey ev1000)
          = some { r1 with Count := wrapInt64 (r1.Count + 1), LastSeen := t2 } ∧
        ∀ k, ((Process (Process s t1 ev1000).1 t2 ev2000).1.events k).isSome
          ↔ ((Process s t1 ev1000).1.events k).isSome) :=
  ⟨by decide, by decide, identity_only ev1000 ev2000 (by decide)⟩

/-! ## `LastSeen` -/

theorem Process_lastSeen (s : EventStore) (now : Time) (e : FocalboardEvent) :
    (Process s now e).2.LastSeen = now := by
  cases h : s.events (generateKey e) with
  | none => rw [(Process_of_none s now e h).1]
  | some r => rw [(Process_of_some s now e r h).1]

/-- One call keeps every `LastSeen` below the clock readings still to come. -/
theorem Process_lastSeen_le (s : EventStore) (now : Time) (e : FocalboardEvent)
    (ts : List Time) (hs : ∀ t ∈ ts, now ≤ t)
    (hJ : ∀ k r, s.events k = some r → ∀ t ∈ now :: ts, r.LastSeen ≤ t) :
    ∀ k r, (Process s now e).1.events k = some r → ∀ t ∈ ts, r.LastSeen ≤ t := by
  intro k r hr t ht
  by_cases hk : k = generateKey e
  · subst hk
    rw [Process_stored_eq_returned] at hr
    have hr2 : (Process s now e).2 = r := Option.some.inj hr
    rw [← hr2, Process_lastSeen]
    exact hs t ht
  · rw [Process_events_of_ne s now e k hk] at hr
    exact hJ k r hr t (List.mem_cons_of_mem _ ht)

/-- One call at a reading not before any stored `LastSeen` keeps
`FirstSeen ≤ LastSeen` in every record. -/
theorem Process_firstSeen_le (s : EventStore) (now : Time) (e : FocalboardEvent)
    (hI : ∀ k r, s.events k = some r → r.FirstSeen ≤ r.LastSeen)
    (hJ : ∀ k r, s.events k = some r → r.LastSeen ≤ now) :
    ∀ k r, (Process s now e).1.events k = some r → r.FirstSeen ≤ r.LastSeen := by
  intro k r hr
  by_cases hk : k = generateKey e
  · subst hk
    cases h : s.events (generateKey e) with
    | none =>
      rw [(Process_of_none s now e h).2] at hr
      have hr2 := Option.some.inj hr
      rw [← hr2]
    | some r0 =>
      rw [(Process_of_some s now e r0 h).2] at hr
      have hr2 := Option.some.inj hr
      rw [← hr2]
      exact le_trans (hI _ r0 h) (hJ _ r0 h)
  · rw [Process_events_of_ne s now e k hk] at hr
    exact hI k r hr

theorem run_lastSeen_le (pre post : List (Time × FocalboardEvent)) (s : EventStore)
    (hs : List.Pairwise (fun a b => a ≤ b) (clock (pre ++ post)))
    (hJ : ∀ k r, s.events k = some r → ∀ t ∈ clock (pre ++ post), r.LastSeen ≤ t) :
    ∀ k r, (run s pre).events k = some r → ∀ t ∈ clock post, r.LastSeen ≤ t := by
  induction pre generalizing s with
  | nil => exact hJ
  | cons c cs ih =>
    rw [run_cons]
    have hs2 : (∀ t ∈ clock (cs ++ post), c.1 ≤ t) ∧
        List.Pairwise (fun a b => a ≤ b) (clock (cs ++ post)) := List.pairwise_cons.mp hs
    exact ih _ hs2.2 (Process_lastSeen_le s c.1 c.2 _ hs2.1 hJ)

theorem run_firstSeen_le (calls : List (Time × FocalboardEvent)) (s : EventStore)
    (hs : List.Pairwise (fun a b => a ≤ b) (clock calls))
    (hJ : ∀ k r, s.events k = some r → ∀ t ∈ clock calls, r.LastSeen ≤ t)
    (hI : ∀ k r, s.events k = some r → r.FirstSeen ≤ r.LastSeen) :
    ∀ k r, (run s calls).events k = some r → r.FirstSeen ≤ r.LastSeen := by
  induction calls generalizing s with
  | nil => exact hI
  | cons c cs ih =>
    rw [run_cons]
    have hs2 : (∀ t ∈ clock cs, c.1 ≤ t) ∧
        List.Pairwise (fun a b => a ≤ b) (clock cs) := List.pairwise_cons.mp hs
    refine ih _ hs2.2 (Process_lastSeen_le s c.1 c.2 _ hs2.1 hJ) ?_
    exact Process_firstSeen_le s c.1 c.2 hI
      (fun k r hr => hJ k r hr c.1 (List.mem_cons_self _ _))

theorem run_lastSeen_mono (calls : List (Time × FocalboardEvent)) (s : EventStore)
    (hs : List.Pairwise (fun a b => a ≤ b) (clock calls))
    (hJ : ∀ k r, s.events k = some r → ∀ t ∈ clock calls, r.LastSeen ≤ t)
    (k : String) (r : StoredEvent) (h : s.events k = some r) :
    ∃ r2, (run s calls).events k = some r2 ∧ r.LastSeen ≤ r2.LastSeen := by
  induction calls generalizing s r with
  | nil => exact ⟨r, h, le_refl _⟩
  | cons c cs ih =>
    rw [run_cons]
    have hs2 : (∀ t ∈ clock cs, c.1 ≤ t) ∧
        List.Pairwise (fun a b => a ≤ b) (clock cs) := List.pairwise_cons.mp hs
    have hJ2 := Process_lastSeen_le s c.1 c.2 _ hs2.1 hJ
    by_cases hk : k = generateKey c.2
    · subst hk
      obtain ⟨r2, h2, hle⟩ := ih _ hs2.2 hJ2 _ (Process_stored_eq_returned s c.1 c.2)
      rw [Process_lastSeen] at hle
      exact ⟨r2, h2, le_trans (hJ _ r h c.1 (List.mem_cons_self _ _)) hle⟩
    · exact ih _ hs2.2 hJ2 r (by rw [Process_events_of_ne s c.1 c.2 k hk]; exact h)

/-- C6. `LastSeen` monotonicity: in a sequence of calls on the empty store whose
clock readings are non-decreasing, (1) right after a call at reading `t` the record
under the key of its event has `LastSeen = t`, which is greater than or equal to the
`LastSeen` the key had before that call; (2) the `LastSeen` of a key at any point of
the sequence is less than or equal to its `LastSeen` at the end; (3) every stored
record has `FirstSeen ≤ LastSeen`. -/
theorem last_seen_monotone (calls : List (Time × FocalboardEvent))
    (hs : List.Chain' (fun a b => a ≤ b) (clock calls)) :
    (∀ pre t e post, calls = pre ++ (t, e) :: post →
      ∃ r, (run NewEventStore (pre ++ [(t, e)])).events (generateKey e) = some r ∧
        r.LastSeen = t ∧
        ∀ r0, (run NewEventStore pre).events (generateKey e) = some r0 → r0.LastSeen ≤ t) ∧
    (∀ pre post k r, calls = pre ++ post → (run NewEventStore pre).events k = some r →
      ∃ r2, (run NewEventStore calls).events k = some r2 ∧ r.LastSeen ≤ r2.LastSeen) ∧
    (∀ k r, (run NewEventStore calls).events k = some r → r.FirstSeen ≤ r.LastSeen) := by
  have hp : List.Pairwise (fun a b => a ≤ b) (clock calls) := List.chain'_iff_pairwise.mp hs
  have h0 : ∀ (ts : List Time) k r, NewEventStore.events k = some r →
      ∀ t ∈ ts, r.LastSeen ≤ t := by
    intro ts k r hr
    cases hr
  refine ⟨?_, ?_, ?_⟩
  · intro pre t e post hc
    subst hc
    refine ⟨(Process (run NewEventStore pre) t e).2, ?_, Process_lastSeen _ t e, ?_⟩
    · rw [run_append, run_cons, run_nil]
      exact Process_stored_eq_returned _ t e
    · intro r0 hr0
      exact run_lastSeen_le pre ((t, e) :: post) NewEventStore hp (h0 _) _ r0 hr0 t
        (by simp [clock])
  · intro pre post k r hc hr
    subst hc
    rw [run_append]
    have hp2 : List.Pairwise (fun a b => a ≤ b) (clock post) := by
      unfold clock at hp ⊢
      rw [List.map_append] at hp
      exact (List.pairwise_append.mp hp).2.1
    exact run_lastSeen_mono post (run NewEventStore pre) hp2
      (run_lastSeen_le pre post NewEventStore hp (h0 _)) k r hr
  · exact run_firstSeen_le calls NewEventStore hp (h0 _) (fun k r hr => by cases hr)

theorem last_seen_monotone_witness :
    List.Chain' (fun a b => a ≤ b) (clock scenario) ∧
    scenario = [(10, ev1000), (20, evB2)] ++ (30, ev2000) :: [] ∧
    (run NewEventStore [(10, ev1000), (20, evB2)]).events (generateKey ev2000)
      = some ⟨10, 10, 1, ev1000⟩ ∧
    (∃ r, (run NewEventStore ([(10, ev1000), (20, evB2)] ++ [(30, ev2000)])).events
        (generateKey ev2000) = some r ∧ r.LastSeen = 30 ∧
        ∀ r0, (run NewEventStore [(10, ev1000), (20, evB2)]).events (generateKey ev2000)
          = some r0 → r0.LastSeen ≤ 30) ∧
    (∃ r2, (run NewEventStore scenario).events (generateKey ev2000) = some r2 ∧
        (10 : Int) ≤ r2.LastSeen) :=
  ⟨by simp [clock, scenario], by decide, by decide!,
   (last_seen_monotone scenario (by simp [clock, scenario])).1
     [(10, ev1000), (20, evB2)] 30 ev2000 [] (by decide),
   (last_seen_monotone scenario (by simp [clock, scenario])).2.1
     [(10, ev1000), (20, evB2)] [(30, ev2000)]
     (generateKey ev2000) ⟨10, 10, 1, ev1000⟩ (by decide) (by decide!)⟩

/-! ## The formatted key -/

theorem canonicalKey_data (e : FocalboardEvent) :
    (canonicalKey e).data = "type:".data ++ (e.Type_.data ++ ('|' :: ("user:".data ++
      (e.UserID.data ++ ('|' :: ("block:".data ++
      (e.BlockID.data ++ ('|' :: ("board:".data ++ e.BoardID.data))))))))) := by
  unfold canonicalKey
  simp only [String.data_append, List.append_assoc]
  rfl

/-- Two lists split at a character that neither left part contains split alike. -/
theorem eq_of_append_sep {α : Type} (c : α) (a b x y : List α) (ha : c ∉ a) (hb : c ∉ b)
    (h : a ++ c :: x = b ++ c :: y) : a = b ∧ x = y := by
  induction a generalizing b with
  | nil =>
    cases b with
    | nil => exact ⟨rfl, by simpa using h⟩
    | cons b0 bs =>
      simp only [List.nil_append, List.cons_append, List.cons.injEq] at h
      exact absurd (List.mem_cons_self _ _) (h.1 ▸ hb)
  | cons a0 as ih =>
    cases b with
    | nil =>
      simp only [List.nil_append, List.cons_append, List.cons.injEq] at h
      exact absurd (List.mem_cons_self _ _) (h.1 ▸ ha)
    | cons b0 bs =>
      simp only [List.cons_append, List.cons.injEq] at h
      obtain ⟨h1, h2⟩ := ih bs (fun hm => ha (List.mem_cons_of_mem _ hm))
        (fun hm => hb (List.mem_cons_of_mem _ hm)) h.2
      exact ⟨by rw [h.1, h1], h2⟩

theorem identity_of_canonicalKey_agreeOnThree (e1 e2 : FocalboardEvent)
    (h3 : agreeOnThree e1 e2) (h : canonicalKey e1 = canonicalKey e2) :
    identity e1 = identity e2 := by
  have hd := congrArg String.data h
  rw [canonicalKey_data, canonicalKey_data] at hd
  unfold identity
  rcases h3 with ⟨hU, hB, hD⟩ | ⟨hT, hB, hD⟩ | ⟨hT, hU, hD⟩ | ⟨hT, hU, hB⟩
  · rw [hU, hB, hD] at hd ⊢
    rw [String.ext (List.append_cancel_right (List.append_cancel_left hd))]
  · rw [hT, hB, hD] at hd ⊢
    simp only [List.append_cancel_left_eq, List.cons.injEq, true_and,
      List.append_cancel_right_eq] at hd
    rw [String.ext hd]
  · rw [hT, hU, hD] at hd ⊢
    simp only [List.append_cancel_left_eq, List.cons.injEq, true_and,
      List.append_cancel_right_eq] at hd
    rw [String.ext hd]
  · rw [hT, hU, hB] at hd ⊢
    simp only [List.append_cancel_left_eq, List.cons.injEq, true_and] at hd
    rw [String.ext hd]

theorem identity_of_canonicalKey_separatorFree (e1 e2 : FocalboardEvent)
    (h1 : separatorFree e1) (h2 : separatorFree e2) (h : canonicalKey e1 = canonicalKey e2) :
    identity e1 = identity e2 := by
  have hd := congrArg String.data h
  rw [canonicalKey_data, canonicalKey_data] at hd
  obtain ⟨hT, hd⟩ := eq_of_append_sep _ _ _ _ _ h1.1 h2.1 (List.append_cancel_left hd)
  obtain ⟨hU, hd⟩ := eq_of_append_sep _ _ _ _ _ h1.2.1 h2.2.1 (List.append_cancel_left hd)
  obtain ⟨hB, hd⟩ := eq_of_append_sep _ _ _ _ _ h1.2.2 h2.2.2 (List.append_cancel_left hd)
  have hD := List.append_cancel_left hd
  unfold identity
  rw [String.ext hT, String.ext hU, String.ext hB, String.ext hD]

/-- C3. The claim fails on the code: the tuples `("a|user:b", "c", "", "")` and
`("a", "b|user:c", "", "")` differ in `Type` and in `UserID`, yet `generateKey`
formats both to `type:a|user:b|user:c|block:|board:`, so both get the key
`277bf133...1d07` and `Process` counts the two events in one record. -/
theorem generateKey_collision :
    identity evSepInType ≠ identity evSepInUser ∧
    canonicalKey evSepInType = "type:a|user:b|user:c|block:|board:" ∧
    canonicalKey evSepInUser = "type:a|user:b|user:c|block:|board:" ∧
    generateKey evSepInType
      = "277bf133eb9f01c6e0a1ce9db094e43ba2b3b5dd722d69f8801d4a95f32b1d07" ∧
    generateKey evSepInUser
      = "277bf133eb9f01c6e0a1ce9db094e43ba2b3b5dd722d69f8801d4a95f32b1d07" ∧
    (Process (Process NewEventStore 10 evSepInType).1 20 evSepInUser).2
      = ⟨10, 20, 2, evSepInType⟩ := by
  decide!

/-- Where the formatted key does separate events: two events that differ in exactly
one of the four identity fields are formatted to different strings. -/
theorem canonicalKey_ne_of_agreeOnThree (e1 e2 : FocalboardEvent)
    (hne : identity e1 ≠ identity e2) (h3 : agreeOnThree e1 e2) :
    canonicalKey e1 ≠ canonicalKey e2 :=
  fun h => hne (identity_of_canonicalKey_agreeOnThree e1 e2 h3 h)

/-- Where the formatted key does separate events: two events with different identity
fields and no `|` in `Type`, `UserID` and `BlockID` are formatted to different strings. -/
theorem canonicalKey_ne_of_separatorFree (e1 e2 : FocalboardEvent)
    (hne : identity e1 ≠ identity e2) (h1 : separatorFree e1) (h2 : separatorFree e2) :
    canonicalKey e1 ≠ canonicalKey e2 :=
  fun h => hne (identity_of_canonicalKey_separatorFree e1 e2 h1 h2 h)

/-- The keys of `("a", "bc", "", "")` and `("ab", "c", "", "")` differ. -/
theorem generateKey_boundary_example :
    canonicalKey evA_BC ≠ canonicalKey evAB_C ∧ generateKey evA_BC ≠ generateKey evAB_C := by
  decide!

end event
